import Mathlib

/-!
Shallow embedding of `src/app.py`, a single-session Streamlit RAG app.

The program keeps per-session state (`vs_id`, `indexed_filenames`,
`chat_history`, `model_choice`), uploads files to an external vector store,
and answers questions via a retrieval-augmented generation endpoint
(`rag_call` / `ask_model`).  External responses are modelled as explicit
values; attribute accesses that can raise `AttributeError` in Python are
modelled with `Option`, and the `try/except Exception: pass` around the
citation-extraction loop is modelled by an explicit error flag that
truncates the traversal at the point where the exception would be raised.
-/

/-- A `{"role": ..., "content": ...}` chat message dictionary. -/
structure Msg where
  role : String
  content : String
deriving DecidableEq, Repr

/-- One entry of `c.results` in the response: `hasattr(r, "file_name")`
is modelled by the field being `some`. -/
structure SearchResult where
  file_name : Option String
deriving DecidableEq, Repr

/-- One content item `c` of a response output block.
`type` and `tool_name` model `getattr(c, "type", "")` and
`getattr(c, "tool_name", "")`: a missing attribute already collapsed to `""`.
`results` models the bare attribute access `c.results`: `none` means the
attribute is missing, so the access raises `AttributeError`; `some l`
covers both a list and `None` (which `or []` turns into `[]`). -/
structure ContentItem where
  type : String
  tool_name : String
  results : Option (List SearchResult)
deriving DecidableEq, Repr

/-- One block of `response.output`; `getattr(block, "content", []) or []`
never raises, so `content` is a plain list. -/
structure Block where
  content : List ContentItem
deriving DecidableEq, Repr

/-- The external endpoint response as `rag_call` consumes it:
`output_text` (`none` models `None`) and `output`
(`none` models `None`, turned into `[]` by `or []`). -/
structure ModelResponse where
  output_text : Option String
  output : Option (List Block)
deriving DecidableEq, Repr

/-- The per-session state: `st.session_state.vs_id`,
`st.session_state.indexed_filenames`, `st.session_state.chat_history`,
`st.session_state.model_choice`. -/
structure SessionState where
  vs_id : String
  indexed_filenames : Finset String
  chat_history : List Msg
  model_choice : String
deriving DecidableEq

/-- The request payload `rag_call` submits via `client.responses.create`. -/
structure RagRequest where
  model : String
  instructions : String
  vector_store_ids : List String
  input : List Msg
deriving DecidableEq

/-- The inner loop `for r in c.results or []: if hasattr(r, "file_name"):
used_files.append(r.file_name)`. -/
def collectResults : List SearchResult → List String
  | [] => []
  | r :: rs =>
    match r.file_name with
    | some f => f :: collectResults rs
    | none => collectResults rs

/-- The loop over the content items of a block.  Returns the filenames
appended so far together with an error flag: if a matching item has no
`results` attribute, `c.results` raises, the loop stops, and nothing after
that point is collected (the files already appended are kept, as in the
Python code where `used_files` is mutated in place before the `except`). -/
def collectItems : List ContentItem → List String × Bool
  | [] => ([], false)
  | c :: cs =>
    if c.type = "tool_result" ∧ c.tool_name = "file_search" then
      match c.results with
      | none => ([], true)
      | some rs =>
        let p := collectItems cs
        (collectResults rs ++ p.1, p.2)
    else collectItems cs

/-- The outer loop `for block in response.output or []`.  An exception in
an inner loop unwinds the whole nested loop: the blocks after the failing
one are not visited. -/
def collectBlocks : List Block → List String × Bool
  | [] => ([], false)
  | b :: bs =>
    let p := collectItems b.content
    if p.2 then (p.1, true)
    else
      let q := collectBlocks bs
      (p.1 ++ q.1, q.2)

/-- The `used_files` list accumulated by the `try` block of `rag_call`,
with the flag recording whether an exception was swallowed. -/
def usedFilesRaw (resp : ModelResponse) : List String × Bool :=
  collectBlocks (resp.output.getD [])

/-- `True` iff the citation-extraction loop of `rag_call` raised and the
exception was swallowed by `except Exception: pass`. -/
def extractionErr (resp : ModelResponse) : Bool :=
  (usedFilesRaw resp).2

/-- `answer_text = response.output_text or "_No text output._"`. -/
def answerTextOf (resp : ModelResponse) : String :=
  match resp.output_text with
  | some s => if s = "" then "_No text output._" else s
  | none => "_No text output._"

/-- What `rag_call` returns, plus the request it submitted. -/
structure RagResult where
  req : RagRequest
  answer_text : String
  used_files : List String
deriving DecidableEq

/-- `rag_call(messages, instructions)` from `src/app.py`: builds the
Responses-API request with `file_search` pointed at the session's vector
store, and returns `(answer_text, sorted(set(used_files)))`.  The external
endpoint's reply is passed in explicitly as `resp`. -/
def rag_call (st : SessionState) (messages : List Msg) (instructions : String)
    (resp : ModelResponse) : RagResult :=
  { req := { model := st.model_choice
             instructions := instructions
             vector_store_ids := [st.vs_id]
             input := messages }
    answer_text := answerTextOf resp
    used_files := List.insertionSort (· ≤ ·) (usedFilesRaw resp).1.dedup }

/-- The message-list construction in `ask_model`: a fresh list of
role/content dictionaries copied from `chat_history`, with the new user
message appended. -/
def buildMessages (hist : List Msg) (question : String) : List Msg :=
  (hist.map fun m => { role := m.role, content := m.content }) ++
    [{ role := "user", content := question }]

/-- What `ask_model` returns, plus the resulting session state and the
request submitted through `rag_call`. -/
structure AskResult where
  req : RagRequest
  answer_text : String
  used_files : List String
  state : SessionState
deriving DecidableEq

/-- `ask_model(question, instructions, update_history)` from `src/app.py`:
builds messages from `chat_history` plus the new question, calls
`rag_call`, and, when `update_history` is set, appends the user question
and the assistant answer to `chat_history`. -/
def ask_model (st : SessionState) (question instructions : String)
    (update_history : Bool) (resp : ModelResponse) : AskResult :=
  let messages := buildMessages st.chat_history question
  let r := rag_call st messages instructions resp
  let st2 :=
    if update_history then
      { st with chat_history :=
          (st.chat_history ++ [{ role := "user", content := question }]) ++
            [{ role := "assistant", content := r.answer_text }] }
    else st
  { req := r.req
    answer_text := r.answer_text
    used_files := r.used_files
    state := st2 }

/-- The `register_indexed(name)` operation of the session store: the
guard `if f.name not in st.session_state.indexed_filenames` followed by
`st.session_state.indexed_filenames.add(f.name)`. -/
def register_indexed (idx : Finset String) (name : String) : Finset String :=
  if name ∈ idx then idx else insert name idx

/-- Outcome of the two external calls made per new file in the indexing
loop: both succeed, `client.files.create` raises, or
`client.vector_stores.files.create` raises. -/
inductive UploadOutcome where
  | ok
  | uploadFail
  | attachFail
deriving DecidableEq, Repr

/-- One call to the external OpenAI client, recording the data relevant
to the session: the filename uploaded, or the vector-store id targeted. -/
inductive ExternalCall where
  | filesCreate (filename : String)
  | vsFilesCreate (vector_store_id : String)
  | responsesCreate (req : RagRequest)
deriving DecidableEq

/-- The vector-store identifiers an external call targets. -/
def callVsIds : ExternalCall → List String
  | .filesCreate _ => []
  | .vsFilesCreate v => [v]
  | .responsesCreate req => req.vector_store_ids

/-- Result of the upload-and-index loop over `uploaded_files`: final
`indexed_filenames`, the local `newly_indexed_count`, the external calls
attempted, and whether an exception aborted the loop (Python propagates
it, ending the script run with the session state as it stood). -/
structure IndexResult where
  indexed : Finset String
  count : Nat
  calls : List ExternalCall
  aborted : Bool
deriving DecidableEq

/-- The `for f in uploaded_files` loop of `src/app.py` (lines 106-119):
skip files whose name is already indexed; otherwise upload the bytes,
attach the file to the vector store, add the name, bump the count.  The
two state mutations come after both external calls, so a raise leaves
`indexed_filenames` and `newly_indexed_count` untouched for that file and
aborts the rest of the loop. -/
def indexLoop (vsid : String) (idx : Finset String) (cnt : Nat) :
    List (String × UploadOutcome) → IndexResult
  | [] => { indexed := idx, count := cnt, calls := [], aborted := false }
  | (name, outcome) :: rest =>
    if name ∈ idx then indexLoop vsid idx cnt rest
    else
      match outcome with
      | .uploadFail =>
        { indexed := idx, count := cnt
          calls := [.filesCreate name], aborted := true }
      | .attachFail =>
        { indexed := idx, count := cnt
          calls := [.filesCreate name, .vsFilesCreate vsid], aborted := true }
      | .ok =>
        let r := indexLoop vsid (insert name idx) (cnt + 1) rest
        { indexed := r.indexed, count := r.count
          calls := .filesCreate name :: .vsFilesCreate vsid :: r.calls
          aborted := r.aborted }

/-- The fixed instruction string for interactive chat turns. -/
def chatInstructions : String :=
  "You are a real estate due diligence analyst. " ++
  "Use ONLY the uploaded documents (inspection reports, seller disclosures, appraisals, " ++
  "HOA documents, etc.) to answer. Highlight major risks, estimated impact, and any " ++
  "missing information. When possible, reference the source filenames."

/-- The fixed user message for the investor-summary request. -/
def investorPrompt : String :=
  "Create an investor-style memo for this property based ONLY on the uploaded documents. " ++
  "Include the following sections:\n" ++
  "1. High-Level Summary\n" ++
  "2. Property Condition Overview\n" ++
  "3. Major Risks (with severity)\n" ++
  "4. Recommended Repairs / Capex Items\n" ++
  "5. Potential Upside or Opportunities\n" ++
  "6. Overall Recommendation (e.g., Buy / Cautious Buy / Pass)\n"

/-- The fixed instruction string for the investor summary. -/
def investorInstructions : String :=
  "You are a real estate investment analyst. " ++
  "Write clear, concise, investor-ready memos. " ++
  "Be specific and tie every claim back to the uploaded documents wherever possible."

/-- The user-triggered actions of a session, each carrying the external
data it consumes (file outcomes, endpoint replies). -/
inductive SessionAction where
  | upload (files : List (String × UploadOutcome))
  | chat (question : String) (resp : ModelResponse)
  | summary (resp : ModelResponse)
  | selectModel (m : String)

/-- One user-triggered script interaction: the uploader loop, a chat turn
(`ask_model` with `update_history=True`), the Investor Summary button
handler (a direct `rag_call` on `chat_history + [investor prompt]`, no
history update), or the model selectbox. -/
def step (st : SessionState) : SessionAction → SessionState × List ExternalCall
  | .upload files =>
    let r := indexLoop st.vs_id st.indexed_filenames 0 files
    ({ st with indexed_filenames := r.indexed }, r.calls)
  | .chat q resp =>
    let a := ask_model st q chatInstructions true resp
    (a.state, [.responsesCreate a.req])
  | .summary resp =>
    let r := rag_call st (buildMessages st.chat_history investorPrompt)
      investorInstructions resp
    (st, [.responsesCreate r.req])
  | .selectModel m =>
    ({ st with model_choice := m }, [])

/-- A whole session after start-up: the actions executed in order, with
the trace of external calls. -/
def run (st : SessionState) : List SessionAction → SessionState × List ExternalCall
  | [] => (st, [])
  | a :: rest =>
    let p := step st a
    let q := run p.1 rest
    (q.1, p.2 ++ q.2)

/-- The citation traversal with no truncation: every filename a complete
scan of the response would visit, in visit order.  Used to relate the
partial list kept after a swallowed exception to the full traversal. -/
def allItemCitations : List ContentItem → List String
  | [] => []
  | c :: cs =>
    if c.type = "tool_result" ∧ c.tool_name = "file_search" then
      collectResults (c.results.getD []) ++ allItemCitations cs
    else allItemCitations cs

/-- Full-traversal citations of a whole response, in visit order. -/
def allCitations (resp : ModelResponse) : List String :=
  ((resp.output.getD []).map fun b => allItemCitations b.content).flatten

/-! ### Helper lemmas -/

theorem buildMessages_eq (hist : List Msg) (q : String) :
    buildMessages hist q = hist ++ [{ role := "user", content := q }] := by
  unfold buildMessages
  congr 1
  exact List.map_id' hist

theorem register_indexed_eq_insert (idx : Finset String) (name : String) :
    register_indexed idx name = insert name idx := by
  unfold register_indexed
  split
  · exact (Finset.insert_eq_self.mpr (by assumption)).symm
  · rfl

theorem foldl_register_indexed (l : List String) (s : Finset String) :
    l.foldl register_indexed s = s ∪ l.toFinset := by
  induction l generalizing s with
  | nil => simp
  | cons a t ih =>
    simp only [List.foldl_cons, ih, register_indexed_eq_insert,
      List.toFinset_cons, Finset.insert_union, Finset.union_insert]

/-! ### Claims -/

/-- C1: for every session state, message list, instruction string and
endpoint response shape, the citation list returned by `rag_call` has no
duplicates, is sorted by the lexicographic order on strings, and contains
exactly the filenames the extraction loop collected. -/
theorem rag_call_used_files_sorted_nodup
    (st : SessionState) (messages : List Msg) (instructions : String)
    (resp : ModelResponse) :
    (rag_call st messages instructions resp).used_files.Nodup ∧
    List.Sorted (· ≤ ·) (rag_call st messages instructions resp).used_files ∧
    ∀ f, f ∈ (rag_call st messages instructions resp).used_files ↔
      f ∈ (usedFilesRaw resp).1 := by
  refine ⟨?_, ?_, ?_⟩
  · exact (List.perm_insertionSort _ _).nodup_iff.mpr (List.nodup_dedup _)
  · exact List.sorted_insertionSort _ _
  · intro f
    simp [rag_call, List.mem_insertionSort, List.mem_dedup]

/-- C3: for a transcript of length `2 * N` and a new user question, the
request message list constructed and submitted by `ask_model` has length
`2 * N + 1`, consists of the transcript entries in their original order,
and ends with the new user message. -/
theorem ask_model_request_messages
    (st : SessionState) (question instructions : String)
    (update_history : Bool) (resp : ModelResponse) (N : Nat)
    (h : st.chat_history.length = 2 * N) :
    (ask_model st question instructions update_history resp).req.input.length
        = 2 * N + 1 ∧
    (ask_model st question instructions update_history resp).req.input
        = st.chat_history ++ [{ role := "user", content := question }] := by
  have hreq : (ask_model st question instructions update_history resp).req.input
      = buildMessages st.chat_history question := rfl
  rw [hreq, buildMessages_eq]
  constructor
  · simp [h]
  · rfl

theorem ask_model_request_messages_witness :
    ((⟨"vs_1", ∅, [{ role := "user", content := "hi" },
        { role := "assistant", content := "hello" }], "gpt-5-mini"⟩ :
          SessionState).chat_history.length = 2 * 1) ∧
    ((ask_model ⟨"vs_1", ∅, [{ role := "user", content := "hi" },
        { role := "assistant", content := "hello" }], "gpt-5-mini"⟩
        "q" "i" true ⟨some "a", none⟩).req.input.length = 2 * 1 + 1 ∧
      (ask_model ⟨"vs_1", ∅, [{ role := "user", content := "hi" },
        { role := "assistant", content := "hello" }], "gpt-5-mini"⟩
        "q" "i" true ⟨some "a", none⟩).req.input
        = [{ role := "user", content := "hi" },
           { role := "assistant", content := "hello" }] ++
          [{ role := "user", content := "q" }]) :=
  ⟨rfl, ask_model_request_messages _ "q" "i" true ⟨some "a", none⟩ 1 rfl⟩

/-- C5: registering an indexed filename is idempotent: any sequence of
`register_indexed` calls starting from the empty session leaves
`indexed_filenames` equal to the set of distinct filenames passed, and a
repeated registration is a no-op, so registering the same filename twice
leaves the indexed count at 1. -/
theorem register_indexed_idempotent_set :
    (∀ l : List String, l.foldl register_indexed ∅ = l.toFinset) ∧
    (∀ (s : Finset String) (n : String),
      register_indexed (register_indexed s n) n = register_indexed s n) ∧
    (∀ n : String, (["x", "x"].map (fun _ => n)).foldl register_indexed ∅
        = {n} ∧ ((["x", "x"].map (fun _ => n)).foldl register_indexed ∅).card = 1) := by
  refine ⟨?_, ?_, ?_⟩
  · intro l
    rw [foldl_register_indexed]
    exact Finset.empty_union _
  · intro s n
    simp [register_indexed_eq_insert]
  · intro n
    constructor
    · simp [register_indexed_eq_insert]
    · simp [register_indexed_eq_insert]

/-- C6: whenever the endpoint returns no text (absent or empty
`output_text`), the `answer_text` returned by `rag_call` is the
placeholder string; and `answer_text` is never the empty string. -/
theorem rag_call_answer_text_placeholder
    (st : SessionState) (messages : List Msg) (instructions : String)
    (resp : ModelResponse) :
    ((resp.output_text = none ∨ resp.output_text = some "") →
      (rag_call st messages instructions resp).answer_text = "_No text output._") ∧
    (rag_call st messages instructions resp).answer_text ≠ "" := by
  have hans : (rag_call st messages instructions resp).answer_text
      = answerTextOf resp := rfl
  constructor
  · rintro (h | h) <;> simp [hans, answerTextOf, h]
  · rw [hans]
    cases hresp : resp.output_text with
    | none => simp [answerTextOf, hresp]
    | some s =>
      by_cases hs : s = "" <;> simp [answerTextOf, hresp, hs]

theorem rag_call_answer_text_placeholder_witness :
    (rag_call ⟨"vs_1", ∅, [], "gpt-5-mini"⟩ [] "i" ⟨some "", none⟩).answer_text
        = "_No text output._" ∧
    (rag_call ⟨"vs_1", ∅, [], "gpt-5-mini"⟩ [] "i" ⟨some "", none⟩).answer_text ≠ "" :=
  ⟨(rag_call_answer_text_placeholder ⟨"vs_1", ∅, [], "gpt-5-mini"⟩ [] "i"
      ⟨some "", none⟩).1 (Or.inr rfl),
   (rag_call_answer_text_placeholder ⟨"vs_1", ∅, [], "gpt-5-mini"⟩ [] "i"
      ⟨some "", none⟩).2⟩

/-! ### Traversal lemmas for the citation extraction -/

theorem collectItems_cons_found (c : ContentItem) (cs : List ContentItem)
    (hc : c.type = "tool_result" ∧ c.tool_name = "file_search")
    (rs : List SearchResult) (hr : c.results = some rs) :
    collectItems (c :: cs)
      = (collectResults rs ++ (collectItems cs).1, (collectItems cs).2) := by
  simp [collectItems, hc, hr]

theorem collectItems_cons_missing (c : ContentItem) (cs : List ContentItem)
    (hc : c.type = "tool_result" ∧ c.tool_name = "file_search")
    (hr : c.results = none) :
    collectItems (c :: cs) = ([], true) := by
  simp [collectItems, hc, hr]

theorem collectItems_cons_other (c : ContentItem) (cs : List ContentItem)
    (hc : ¬(c.type = "tool_result" ∧ c.tool_name = "file_search")) :
    collectItems (c :: cs) = collectItems cs := by
  simp only [collectItems, if_neg hc]

theorem allItemCitations_cons_found (c : ContentItem) (cs : List ContentItem)
    (hc : c.type = "tool_result" ∧ c.tool_name = "file_search") :
    allItemCitations (c :: cs)
      = collectResults (c.results.getD []) ++ allItemCitations cs := by
  simp [allItemCitations, hc]

theorem allItemCitations_cons_other (c : ContentItem) (cs : List ContentItem)
    (hc : ¬(c.type = "tool_result" ∧ c.tool_name = "file_search")) :
    allItemCitations (c :: cs) = allItemCitations cs := by
  simp only [allItemCitations, if_neg hc]

theorem collectItems_no_err_eq {cs : List ContentItem}
    (h : (collectItems cs).2 = false) :
    (collectItems cs).1 = allItemCitations cs := by
  induction cs with
  | nil => rfl
  | cons c cs ih =>
    by_cases hc : c.type = "tool_result" ∧ c.tool_name = "file_search"
    · cases hr : c.results with
      | none => rw [collectItems_cons_missing c cs hc hr] at h; exact absurd h (by simp)
      | some rs =>
        rw [collectItems_cons_found c cs hc rs hr] at h ⊢
        rw [allItemCitations_cons_found c cs hc, hr, Option.getD_some]
        exact congrArg _ (ih h)
    · rw [collectItems_cons_other c cs hc] at h ⊢
      rw [allItemCitations_cons_other c cs hc]
      exact ih h

theorem collectItems_prefix_of_all (cs : List ContentItem) :
    (collectItems cs).1 <+: allItemCitations cs := by
  induction cs with
  | nil => exact List.prefix_refl _
  | cons c cs ih =>
    by_cases hc : c.type = "tool_result" ∧ c.tool_name = "file_search"
    · cases hr : c.results with
      | none =>
        rw [collectItems_cons_missing c cs hc hr]
        exact List.nil_prefix
      | some rs =>
        rw [collectItems_cons_found c cs hc rs hr,
          allItemCitations_cons_found c cs hc, hr, Option.getD_some]
        obtain ⟨t, ht⟩ := ih
        exact ⟨t, by rw [List.append_assoc, ht]⟩
    · rw [collectItems_cons_other c cs hc, allItemCitations_cons_other c cs hc]
      exact ih

theorem collectBlocks_prefix_of_all (bs : List Block) :
    (collectBlocks bs).1 <+: (bs.map fun b => allItemCitations b.content).flatten := by
  induction bs with
  | nil => exact List.prefix_refl _
  | cons b bs ih =>
    simp only [collectBlocks, List.map_cons, List.flatten_cons]
    cases he : (collectItems b.content).2 with
    | true =>
      simp only [he, if_true]
      exact (collectItems_prefix_of_all b.content).trans (List.prefix_append _ _)
    | false =>
      simp only [he, Bool.false_eq_true, if_false]
      rw [collectItems_no_err_eq he]
      obtain ⟨t, ht⟩ := ih
      exact ⟨t, by rw [List.append_assoc, ht]⟩

theorem usedFilesRaw_prefix_of_all (resp : ModelResponse) :
    (usedFilesRaw resp).1 <+: allCitations resp :=
  collectBlocks_prefix_of_all _

/-- A demo session state for concrete instantiations. -/
def stDemo : SessionState :=
  { vs_id := "vs_1", indexed_filenames := ∅, chat_history := [],
    model_choice := "gpt-5-mini" }

/-- A response whose first block yields the citation `a.pdf` and whose
second block has a matching item with no `results` attribute, so the
traversal raises `AttributeError` after one append. -/
def respErrDemo : ModelResponse :=
  ⟨some "x",
    some [⟨[⟨"tool_result", "file_search", some [⟨some "a.pdf"⟩]⟩]⟩,
          ⟨[⟨"tool_result", "file_search", none⟩]⟩]⟩

/-- C2 counterexample: on `respErrDemo` the extraction raises and the
exception is swallowed, yet `rag_call` returns the non-empty partial
citation list `["a.pdf"]`, so the claim that any traversal error yields an
empty citation set is false. -/
theorem rag_call_error_empty_counterexample :
    extractionErr respErrDemo = true ∧
    (rag_call stDemo [] "" respErrDemo).used_files = ["a.pdf"] ∧
    (rag_call stDemo [] "" respErrDemo).used_files ≠ [] := by
  refine ⟨rfl, by decide, by decide⟩

/-- C2 amended: any error during traversal of the response structure is
swallowed, never propagated (the extraction is total by construction and
`rag_call` always returns); but the citation set returned after a
swallowed error is the sorted deduplication of the prefix of the full
citation traversal collected before the raise — possibly partial and
non-empty, not necessarily empty. -/
theorem rag_call_error_partial_prefix
    (st : SessionState) (messages : List Msg) (instructions : String)
    (resp : ModelResponse) (_h : extractionErr resp = true) :
    ∃ l, l <+: allCitations resp ∧
      (rag_call st messages instructions resp).used_files
        = List.insertionSort (· ≤ ·) l.dedup :=
  ⟨(usedFilesRaw resp).1, usedFilesRaw_prefix_of_all resp, rfl⟩

theorem rag_call_error_partial_prefix_witness :
    extractionErr respErrDemo = true ∧
    ∃ l, l <+: allCitations respErrDemo ∧
      (rag_call stDemo [] "" respErrDemo).used_files
        = List.insertionSort (· ≤ ·) l.dedup :=
  ⟨rfl, rag_call_error_partial_prefix stDemo [] "" respErrDemo rfl⟩

/-! ### Membership characterization of the extracted citations -/

theorem mem_collectResults {rs : List SearchResult} {f : String}
    (h : f ∈ collectResults rs) : ∃ r ∈ rs, r.file_name = some f := by
  induction rs with
  | nil => exact absurd h (by simp [collectResults])
  | cons r rs ih =>
    cases hr : r.file_name with
    | some g =>
      have hcr : collectResults (r :: rs) = g :: collectResults rs := by
        simp [collectResults, hr]
      rw [hcr] at h
      rcases List.mem_cons.mp h with h1 | h2
      · exact ⟨r, List.mem_cons_self r rs, by rw [hr, h1]⟩
      · obtain ⟨r2, hm, hf⟩ := ih h2
        exact ⟨r2, List.mem_cons_of_mem r hm, hf⟩
    | none =>
      have hcr : collectResults (r :: rs) = collectResults rs := by
        simp [collectResults, hr]
      rw [hcr] at h
      obtain ⟨r2, hm, hf⟩ := ih h
      exact ⟨r2, List.mem_cons_of_mem r hm, hf⟩

theorem mem_collectItems {cs : List ContentItem} {f : String}
    (h : f ∈ (collectItems cs).1) :
    ∃ c ∈ cs, c.type = "tool_result" ∧ c.tool_name = "file_search" ∧
      ∃ rs, c.results = some rs ∧ ∃ r ∈ rs, r.file_name = some f := by
  induction cs with
  | nil => exact absurd h (by simp [collectItems])
  | cons c cs ih =>
    by_cases hc : c.type = "tool_result" ∧ c.tool_name = "file_search"
    · cases hr : c.results with
      | none =>
        rw [collectItems_cons_missing c cs hc hr] at h
        exact absurd h (by simp)
      | some rs =>
        rw [collectItems_cons_found c cs hc rs hr] at h
        rcases List.mem_append.mp h with h1 | h2
        · exact ⟨c, List.mem_cons_self c cs, hc.1, hc.2, rs, hr,
            mem_collectResults h1⟩
        · obtain ⟨c2, hm, hrest⟩ := ih h2
          exact ⟨c2, List.mem_cons_of_mem c hm, hrest⟩
    · rw [collectItems_cons_other c cs hc] at h
      obtain ⟨c2, hm, hrest⟩ := ih h
      exact ⟨c2, List.mem_cons_of_mem c hm, hrest⟩

theorem mem_collectBlocks {bs : List Block} {f : String}
    (h : f ∈ (collectBlocks bs).1) :
    ∃ b ∈ bs, ∃ c ∈ b.content,
      c.type = "tool_result" ∧ c.tool_name = "file_search" ∧
      ∃ rs, c.results = some rs ∧ ∃ r ∈ rs, r.file_name = some f := by
  induction bs with
  | nil => exact absurd h (by simp [collectBlocks])
  | cons b bs ih =>
    simp only [collectBlocks] at h
    cases he : (collectItems b.content).2 with
    | true =>
      rw [he] at h
      simp only [if_true] at h
      obtain ⟨c, hm, hrest⟩ := mem_collectItems h
      exact ⟨b, List.mem_cons_self b bs, c, hm, hrest⟩
    | false =>
      rw [he] at h
      simp only [Bool.false_eq_true, if_false] at h
      rcases List.mem_append.mp h with h1 | h2
      · obtain ⟨c, hm, hrest⟩ := mem_collectItems h1
        exact ⟨b, List.mem_cons_self b bs, c, hm, hrest⟩
      · obtain ⟨b2, hb, hrest⟩ := ih h2
        exact ⟨b2, List.mem_cons_of_mem b hb, hrest⟩

/-- Membership in the returned citation list agrees with membership in
the raw accumulated `used_files` list. -/
theorem mem_rag_call_used_files
    (st : SessionState) (messages : List Msg) (instructions : String)
    (resp : ModelResponse) (f : String) :
    f ∈ (rag_call st messages instructions resp).used_files ↔
      f ∈ (usedFilesRaw resp).1 := by
  simp [rag_call, List.mem_insertionSort, List.mem_dedup]

/-- C10: every filename in the citation list returned by `rag_call` comes
from a content item whose `type` is `"tool_result"` and whose `tool_name`
is `"file_search"`, through a present `results` list entry carrying a
`file_name` attribute equal to that filename; no other block, content
item, or result entry contributes a citation. -/
theorem citations_only_from_file_search
    (st : SessionState) (messages : List Msg) (instructions : String)
    (resp : ModelResponse) (f : String)
    (h : f ∈ (rag_call st messages instructions resp).used_files) :
    ∃ b ∈ resp.output.getD [], ∃ c ∈ b.content,
      c.type = "tool_result" ∧ c.tool_name = "file_search" ∧
      ∃ rs, c.results = some rs ∧ ∃ r ∈ rs, r.file_name = some f :=
  mem_collectBlocks
    ((mem_rag_call_used_files st messages instructions resp f).mp h)

theorem citations_only_from_file_search_witness :
    ∃ b ∈ respErrDemo.output.getD [], ∃ c ∈ b.content,
      c.type = "tool_result" ∧ c.tool_name = "file_search" ∧
      ∃ rs, c.results = some rs ∧ ∃ r ∈ rs, r.file_name = some "a.pdf" :=
  citations_only_from_file_search stDemo [] "" respErrDemo "a.pdf" (by decide)

/-! ### Transcript and session-state lemmas -/

theorem step_chat_history (st : SessionState) (q : String) (resp : ModelResponse) :
    ((step st (SessionAction.chat q resp)).1).chat_history
      = st.chat_history ++ [{ role := "user", content := q },
          { role := "assistant", content := answerTextOf resp }] := by
  simp [step, ask_model, rag_call]

/-- C4: the transcript is strictly append-only: a chat turn appends
exactly one user entry followed by one assistant entry after the existing
entries, and after any sequence of `N` successful chat turns the
transcript is the old transcript (a preserved prefix: nothing mutated or
removed) extended to length `old + 2 * N`; starting from an empty
transcript this is exactly `2 * N`. -/
theorem transcript_append_only :
    (∀ (st : SessionState) (q : String) (resp : ModelResponse),
      ((step st (SessionAction.chat q resp)).1).chat_history
        = st.chat_history ++ [{ role := "user", content := q },
            { role := "assistant", content := answerTextOf resp }]) ∧
    (∀ (st : SessionState) (turns : List (String × ModelResponse)),
      st.chat_history <+:
        ((run st (turns.map fun p => SessionAction.chat p.1 p.2)).1).chat_history ∧
      ((run st (turns.map fun p => SessionAction.chat p.1 p.2)).1).chat_history.length
        = st.chat_history.length + 2 * turns.length) := by
  refine ⟨step_chat_history, ?_⟩
  intro st turns
  induction turns generalizing st with
  | nil => exact ⟨List.prefix_refl _, by simp [run]⟩
  | cons p rest ih =>
    simp only [List.map_cons, run, List.length_cons]
    obtain ⟨hpre, hlen⟩ := ih (step st (SessionAction.chat p.1 p.2)).1
    constructor
    · refine List.IsPrefix.trans ?_ hpre
      rw [step_chat_history]
      exact List.prefix_append _ _
    · rw [hlen, step_chat_history]
      simp only [List.length_append, List.length_cons, List.length_nil]
      omega

/-- C7: one-shot investor-summary generation reads the transcript but
never modifies it: the summary button handler leaves the whole session
state (in particular `chat_history`) unchanged, `ask_model` with
`update_history = false` leaves the state unchanged, and any sequence of
summary generations leaves the state unchanged. -/
theorem summary_leaves_transcript_unchanged :
    (∀ (st : SessionState) (resp : ModelResponse),
      (step st (SessionAction.summary resp)).1 = st ∧
      ((step st (SessionAction.summary resp)).1).chat_history = st.chat_history) ∧
    (∀ (st : SessionState) (q instr : String) (resp : ModelResponse),
      (ask_model st q instr false resp).state = st) ∧
    (∀ (st : SessionState) (resps : List ModelResponse),
      (run st (resps.map SessionAction.summary)).1 = st) := by
  refine ⟨fun st resp => ⟨rfl, rfl⟩, fun st q instr resp => rfl, ?_⟩
  intro st resps
  induction resps generalizing st with
  | nil => rfl
  | cons r rest ih =>
    simp only [List.map_cons, run]
    exact ih st

/-- C8: if the upload-and-index step for a new file raises (either the
byte upload or the attachment to the vector store), then
`indexed_filenames` is left unchanged, `newly_indexed_count` is not
incremented, and the loop aborts: the session state for that file is as
if the operation had not been attempted. -/
theorem indexLoop_failure_leaves_state (vsid : String) (idx : Finset String)
    (cnt : Nat) (name : String) (out : UploadOutcome)
    (rest : List (String × UploadOutcome))
    (hnew : name ∉ idx) (hfail : out ≠ UploadOutcome.ok) :
    (indexLoop vsid idx cnt ((name, out) :: rest)).indexed = idx ∧
    (indexLoop vsid idx cnt ((name, out) :: rest)).count = cnt ∧
    (indexLoop vsid idx cnt ((name, out) :: rest)).aborted = true := by
  cases out with
  | ok => exact absurd rfl hfail
  | uploadFail => simp [indexLoop, hnew]
  | attachFail => simp [indexLoop, hnew]

theorem indexLoop_failure_leaves_state_witness :
    ("a.pdf" ∉ (∅ : Finset String)) ∧
    UploadOutcome.uploadFail ≠ UploadOutcome.ok ∧
    ((indexLoop "vs_1" ∅ 0 [("a.pdf", UploadOutcome.uploadFail)]).indexed = ∅ ∧
     (indexLoop "vs_1" ∅ 0 [("a.pdf", UploadOutcome.uploadFail)]).count = 0 ∧
     (indexLoop "vs_1" ∅ 0 [("a.pdf", UploadOutcome.uploadFail)]).aborted = true) :=
  ⟨Finset.not_mem_empty _, by decide,
   indexLoop_failure_leaves_state "vs_1" ∅ 0 "a.pdf" UploadOutcome.uploadFail []
     (Finset.not_mem_empty _) (by decide)⟩

/-! ### Vector-store identifier invariant -/

theorem indexLoop_calls_vsid (vsid : String) (idx : Finset String) (cnt : Nat)
    (files : List (String × UploadOutcome)) :
    ∀ c ∈ (indexLoop vsid idx cnt files).calls, ∀ v ∈ callVsIds c, v = vsid := by
  induction files generalizing idx cnt with
  | nil => intro c hc; exact absurd hc (by simp [indexLoop])
  | cons p rest ih =>
    obtain ⟨name, outcome⟩ := p
    by_cases hmem : name ∈ idx
    · intro c hc v hv
      have heq : indexLoop vsid idx cnt ((name, outcome) :: rest)
          = indexLoop vsid idx cnt rest := by
        simp [indexLoop, hmem]
      rw [heq] at hc
      exact ih idx cnt c hc v hv
    · cases outcome with
      | ok =>
        intro c hc v hv
        have heq : (indexLoop vsid idx cnt ((name, UploadOutcome.ok) :: rest)).calls
            = ExternalCall.filesCreate name :: ExternalCall.vsFilesCreate vsid ::
                (indexLoop vsid (insert name idx) (cnt + 1) rest).calls := by
          simp [indexLoop, hmem]
        rw [heq] at hc
        rcases List.mem_cons.mp hc with h1 | hc2
        · subst h1; exact absurd hv (by simp [callVsIds])
        · rcases List.mem_cons.mp hc2 with h2 | h3
          · subst h2; simpa [callVsIds] using hv
          · exact ih (insert name idx) (cnt + 1) c h3 v hv
      | uploadFail =>
        intro c hc v hv
        have heq : (indexLoop vsid idx cnt
              ((name, UploadOutcome.uploadFail) :: rest)).calls
            = [ExternalCall.filesCreate name] := by
          simp [indexLoop, hmem]
        rw [heq] at hc
        rcases List.mem_singleton.mp hc with h1
        subst h1; exact absurd hv (by simp [callVsIds])
      | attachFail =>
        intro c hc v hv
        have heq : (indexLoop vsid idx cnt
              ((name, UploadOutcome.attachFail) :: rest)).calls
            = [ExternalCall.filesCreate name, ExternalCall.vsFilesCreate vsid] := by
          simp [indexLoop, hmem]
        rw [heq] at hc
        rcases List.mem_cons.mp hc with h1 | hc2
        · subst h1; exact absurd hv (by simp [callVsIds])
        · rcases List.mem_singleton.mp hc2 with h2
          subst h2; simpa [callVsIds] using hv

theorem step_vs_id (st : SessionState) (a : SessionAction) :
    ((step st a).1).vs_id = st.vs_id ∧
    ∀ c ∈ (step st a).2, ∀ v ∈ callVsIds c, v = st.vs_id := by
  cases a with
  | upload files =>
    exact ⟨rfl, indexLoop_calls_vsid st.vs_id st.indexed_filenames 0 files⟩
  | chat q resp =>
    refine ⟨rfl, ?_⟩
    intro c hc v hv
    simp only [step, List.mem_singleton] at hc
    subst hc
    simpa [callVsIds, ask_model, rag_call] using hv
  | summary resp =>
    refine ⟨rfl, ?_⟩
    intro c hc v hv
    simp only [step, List.mem_singleton] at hc
    subst hc
    simpa [callVsIds, rag_call] using hv
  | selectModel m =>
    refine ⟨rfl, ?_⟩
    intro c hc
    exact absurd hc (by simp [step])

/-- C9: the vector-store identifier is fixed for the whole session: no
user-triggered action ever reassigns `vs_id`, and every external call any
action attempts (file attachment or generation request) targets exactly
the `vs_id` the session started with. -/
theorem run_vs_id_constant (st : SessionState) (acts : List SessionAction) :
    ((run st acts).1).vs_id = st.vs_id ∧
    ∀ c ∈ (run st acts).2, ∀ v ∈ callVsIds c, v = st.vs_id := by
  induction acts generalizing st with
  | nil =>
    refine ⟨rfl, ?_⟩
    intro c hc
    exact absurd hc (by simp [run])
  | cons a rest ih =>
    obtain ⟨hstep, hcalls⟩ := step_vs_id st a
    obtain ⟨hrun, hrcalls⟩ := ih (step st a).1
    constructor
    · simp only [run]
      rw [hrun, hstep]
    · intro c hc v hv
      simp only [run, List.mem_append] at hc
      rcases hc with h1 | h2
      · exact hcalls c h1 v hv
      · rw [← hstep]
        exact hrcalls c h2 v hv

theorem run_vs_id_constant_witness :
    ((run stDemo [SessionAction.upload [("a.pdf", UploadOutcome.ok)]]).1).vs_id
        = "vs_1" ∧
    ExternalCall.vsFilesCreate "vs_1"
        ∈ (run stDemo [SessionAction.upload [("a.pdf", UploadOutcome.ok)]]).2 ∧
    ∀ v ∈ callVsIds (ExternalCall.vsFilesCreate "vs_1"), v = "vs_1" :=
  ⟨(run_vs_id_constant stDemo [SessionAction.upload [("a.pdf", UploadOutcome.ok)]]).1,
   by decide,
   (run_vs_id_constant stDemo [SessionAction.upload [("a.pdf", UploadOutcome.ok)]]).2
     (ExternalCall.vsFilesCreate "vs_1") (by decide)⟩
